import Mathlib

/-!
Verification of the `retour-rs` detour engine specification.

The repository's `src/lib.rs` declares the engine modules (`alloc`, `arch`,
`detours`, `error`, `pic`, `traits`, `util`) but their sources are not
present; only the crate documentation and the integration tests are.  The
definitions below are therefore shallow embeddings modelled from the
specification of those missing modules, at the level of abstraction each
claim needs:

* a byte-level model of the detour engine (decoder, prolog analyzer,
  memory, patching, and the enable/disable state machine);
* a hook-chain resolution model for the chaining behaviour of several
  detours sharing one target;
* a relocation model for trampoline fidelity.
-/

namespace Retour

/-- Modelled from the spec: the error taxonomy of the missing `error`
module (spec section 7). -/
inductive Error where
  | sameAddress
  | invalidCode
  | unsupportedTarget
  | noFreeRegion
  | alreadyEnabled
  | alreadyDisabled
  | threadSuspendConflict
deriving DecidableEq

/-- Modelled from the spec: the instruction decoder of the missing `arch`
module (spec section 4.1), restricted to the opcodes the crate
documentation illustrates (`mov eax, imm32`, `ret`, `jmp rel32`, `nop`,
`push`/`pop ebp`).  Given the byte stream it returns the length of the
first instruction, or `none` for an opcode it cannot safely measure. -/
def decodeLen : List Nat → Option Nat
  | 0xb8 :: rest => if 4 ≤ rest.length then some 5 else none
  | 0xe9 :: rest => if 4 ≤ rest.length then some 5 else none
  | 0xc3 :: _ => some 1
  | 0x90 :: _ => some 1
  | 0x55 :: _ => some 1
  | 0x5d :: _ => some 1
  | _ => none

/-- Modelled from the spec: the prolog analyzer of the missing `arch`
module (spec section 4.2).  It walks the decoder over the entry bytes,
accumulating consumed length, until the accumulated length reaches the
required patch length; it fails with `invalidCode` when the decoder cannot
classify an instruction first.  The fuel argument bounds the walk by the
number of available bytes. -/
def analyzeAux (required : Nat) : Nat → List Nat → Nat → Except Error Nat
  | 0, _, acc => if required ≤ acc then .ok acc else .error .invalidCode
  | fuel + 1, bytes, acc =>
    if required ≤ acc then .ok acc
    else
      match decodeLen bytes with
      | none => .error .invalidCode
      | some n => analyzeAux required fuel (bytes.drop n) (acc + n)

/-- The decoder-reported instruction boundaries of a byte stream: the
offsets at which the sequential decode of the stream starts an
instruction (plus the offset just past the last decodable one). -/
def boundariesAux : Nat → List Nat → Nat → List Nat
  | 0, _, acc => [acc]
  | fuel + 1, bytes, acc =>
    acc ::
      match decodeLen bytes with
      | none => []
      | some n => boundariesAux fuel (bytes.drop n) (acc + n)

/-- Prolog analysis of a byte stream for a given required patch length. -/
def prologAnalyze (bytes : List Nat) (required : Nat) : Except Error Nat :=
  analyzeAux required bytes.length bytes 0

/-- All decoder-reported instruction boundaries of a byte stream. -/
def boundaries (bytes : List Nat) : List Nat :=
  boundariesAux bytes.length bytes 0

/-- Process memory, one byte per address. -/
def Mem : Type := Nat → Nat

/-- Read `len` bytes starting at address `a`. -/
def readBytes (m : Mem) (a : Nat) : Nat → List Nat
  | 0 => []
  | n + 1 => m a :: readBytes m (a + 1) n

/-- Write a byte string into memory starting at address `a`. -/
def writeBytes (m : Mem) : Nat → List Nat → Mem
  | _, [] => m
  | a, b :: bs => writeBytes (fun x => if x = a then b else m x) (a + 1) bs

/-- Required length of the short-relative-jump patch (spec section 4.2). -/
def patchSize : Nat := 5

/-- Little-endian byte encoding of the 32-bit displacement of a short
relative jump from `src` (the patch site) to `dst`. -/
def dispBytes (src dst : Nat) : List Nat :=
  [((dst + 2 ^ 32 - (src + 5) % 2 ^ 32) % 2 ^ 32) % 2 ^ 8,
   ((dst + 2 ^ 32 - (src + 5) % 2 ^ 32) % 2 ^ 32) / 2 ^ 8 % 2 ^ 8,
   ((dst + 2 ^ 32 - (src + 5) % 2 ^ 32) % 2 ^ 32) / 2 ^ 16 % 2 ^ 8,
   ((dst + 2 ^ 32 - (src + 5) % 2 ^ 32) % 2 ^ 32) / 2 ^ 24 % 2 ^ 8]

/-- Modelled from the spec: the patch bytes written over the target's
prolog (spec section 4.5) — a short relative jump `e9` to the detour,
NOP-padded up to the consumed prolog length. -/
def encodePatch (target detour consumed : Nat) : List Nat :=
  0xe9 :: dispBytes target detour ++ List.replicate (consumed - 5) 0x90

/-- Lifecycle states of a raw detour (spec section 4.5). -/
inductive DetourState where
  | constructed
  | enabled
  | disabled
deriving DecidableEq

/-- Modelled from the spec: the raw detour object of the missing
`detours` module (spec section 3) — target, detour, saved original
bytes, patch bytes, consumed length and lifecycle state. -/
structure RawDetour where
  target : Nat
  detourAddr : Nat
  savedBytes : List Nat
  patchBytes : List Nat
  consumed : Nat
  state : DetourState
deriving DecidableEq

/-- Number of entry bytes the analyzer may scan. -/
def scanWindow : Nat := 32

/-- Modelled from the spec: `new(target, detour)` of the missing
`detours` module (spec section 4.5).  Fails with `sameAddress` when the
two addresses coincide; otherwise runs the prolog analyzer, snapshots the
original bytes and computes the patch bytes, returning a constructed
detour.  Construction never mutates target memory. -/
def new (mem : Mem) (target detour : Nat) : Except Error RawDetour :=
  if target = detour then .error .sameAddress
  else
    match prologAnalyze (readBytes mem target scanWindow) patchSize with
    | .error e => .error e
    | .ok consumed =>
      .ok
        { target := target
          detourAddr := detour
          savedBytes := readBytes mem target consumed
          patchBytes := encodePatch target detour consumed
          consumed := consumed
          state := .constructed }

/-- Modelled from the spec: `enable()` (spec section 4.5).  Valid only
outside the `enabled` state; the `writeOk` flag abstracts the outcome of
the thread-safe patch write (spec section 5): when the quiescence
protocol fails, the operation aborts with `threadSuspendConflict` before
any byte is written.  Returns the operation result together with the
resulting memory and detour. -/
def enableOp (writeOk : Bool) (mem : Mem) (d : RawDetour) :
    Except Error Unit × (Mem × RawDetour) :=
  match d.state with
  | .enabled => (.error .alreadyEnabled, (mem, d))
  | _ =>
    if writeOk then
      (.ok (), (writeBytes mem d.target d.patchBytes, { d with state := .enabled }))
    else
      (.error .threadSuspendConflict, (mem, d))

/-- Modelled from the spec: `disable()` (spec section 4.5).  Valid only
from the `enabled` state; writes back the saved original bytes under the
same thread-safety protocol. -/
def disableOp (writeOk : Bool) (mem : Mem) (d : RawDetour) :
    Except Error Unit × (Mem × RawDetour) :=
  match d.state with
  | .enabled =>
    if writeOk then
      (.ok (), (writeBytes mem d.target d.savedBytes, { d with state := .disabled }))
    else
      (.error .threadSuspendConflict, (mem, d))
  | _ => (.error .alreadyDisabled, (mem, d))

/-! ### Basic lemmas about the analyzer, memory and construction -/

theorem le_of_mem_boundariesAux (fuel : Nat) (bytes : List Nat) (acc b : Nat)
    (hb : b ∈ boundariesAux fuel bytes acc) : acc ≤ b := by
  induction fuel generalizing bytes acc with
  | zero =>
    simp only [boundariesAux, List.mem_singleton] at hb
    omega
  | succ fuel ih =>
    simp only [boundariesAux, List.mem_cons] at hb
    rcases hb with hb | hb
    · omega
    · cases hdec : decodeLen bytes with
      | none => rw [hdec] at hb; simp at hb
      | some n =>
        rw [hdec] at hb
        have := ih (bytes.drop n) (acc + n) hb
        omega

theorem analyzeAux_ok (required fuel : Nat) (bytes : List Nat) (acc r : Nat)
    (h : analyzeAux required fuel bytes acc = .ok r) :
    required ≤ r ∧ r ∈ boundariesAux fuel bytes acc ∧
      ∀ b ∈ boundariesAux fuel bytes acc, required ≤ b → r ≤ b := by
  induction fuel generalizing bytes acc with
  | zero =>
    simp only [analyzeAux] at h
    by_cases hra : required ≤ acc
    · rw [if_pos hra] at h
      injection h with h
      subst h
      refine ⟨hra, by simp [boundariesAux], ?_⟩
      intro b hb _
      simp only [boundariesAux, List.mem_singleton] at hb
      omega
    · rw [if_neg hra] at h
      cases h
  | succ fuel ih =>
    simp only [analyzeAux] at h
    by_cases hra : required ≤ acc
    · rw [if_pos hra] at h
      injection h with h
      subst h
      refine ⟨hra, by simp [boundariesAux], ?_⟩
      intro b hb _
      have := le_of_mem_boundariesAux (fuel + 1) bytes acc b hb
      omega
    · rw [if_neg hra] at h
      cases hdec : decodeLen bytes with
      | none => rw [hdec] at h; cases h
      | some n =>
        rw [hdec] at h
        obtain ⟨h1, h2, h3⟩ := ih (bytes.drop n) (acc + n) h
        refine ⟨h1, ?_, ?_⟩
        · simp only [boundariesAux, hdec]
          exact List.mem_cons_of_mem _ h2
        · intro b hb hrb
          simp only [boundariesAux, hdec, List.mem_cons] at hb
          rcases hb with hb | hb
          · omega
          · exact h3 b hb hrb

theorem readBytes_length (m : Mem) (a n : Nat) : (readBytes m a n).length = n := by
  induction n generalizing a with
  | zero => rfl
  | succ n ih => simp [readBytes, ih]

theorem writeBytes_lookup_lt (m : Mem) (a x : Nat) (bs : List Nat) (h : x < a) :
    writeBytes m a bs x = m x := by
  induction bs generalizing m a with
  | nil => rfl
  | cons b bs ih =>
    simp only [writeBytes]
    rw [ih _ _ (by omega)]
    exact if_neg (by omega)

theorem readBytes_writeBytes (m : Mem) (a : Nat) (bs : List Nat) :
    readBytes (writeBytes m a bs) a bs.length = bs := by
  induction bs generalizing m a with
  | nil => rfl
  | cons b bs ih =>
    simp only [writeBytes, List.length_cons, readBytes]
    have h1 : writeBytes (fun x => if x = a then b else m x) (a + 1) bs a = b := by
      rw [writeBytes_lookup_lt _ _ _ _ (Nat.lt_succ_self a)]
      simp
    rw [h1, ih]

theorem encodePatch_length (t r c : Nat) (h : 5 ≤ c) :
    (encodePatch t r c).length = c := by
  simp [encodePatch, dispBytes]
  omega

theorem new_ok_spec (mem : Mem) (t r : Nat) (d : RawDetour)
    (h : new mem t r = .ok d) :
    d.target = t ∧ d.detourAddr = r ∧ d.state = .constructed ∧
      patchSize ≤ d.consumed ∧
      d.savedBytes = readBytes mem t d.consumed ∧
      d.patchBytes = encodePatch t r d.consumed := by
  unfold new at h
  by_cases htr : t = r
  · rw [if_pos htr] at h
    cases h
  · rw [if_neg htr] at h
    cases han : prologAnalyze (readBytes mem t scanWindow) patchSize with
    | error e => rw [han] at h; cases h
    | ok c =>
      rw [han] at h
      injection h with h
      have hc : patchSize ≤ c :=
        (analyzeAux_ok patchSize _ _ 0 c han).1
      subst h
      exact ⟨rfl, rfl, rfl, hc, rfl, rfl⟩

/-! ### Claims about construction and the prolog analyzer -/

/-- C2: for every address `f`, constructing a detour with identical target
and detour addresses fails with `SameAddress` and no detour handle is
produced. -/
theorem new_same_address (mem : Mem) (f : Nat) :
    new mem f f = .error .sameAddress := by
  simp [new]

/-- C7: for every supported instruction sequence, the consumed prolog
length returned by the analyzer is at least the required patch length,
lands on a decoder-reported instruction boundary (so no instruction is
split), and is the smallest boundary that reaches the required length. -/
theorem prolog_consumed_minimal (bytes : List Nat) (required r : Nat)
    (h : prologAnalyze bytes required = .ok r) :
    required ≤ r ∧ r ∈ boundaries bytes ∧
      ∀ b ∈ boundaries bytes, required ≤ b → r ≤ b :=
  analyzeAux_ok required bytes.length bytes 0 r h

theorem prolog_consumed_minimal_w :
    5 ≤ 6 ∧ 6 ∈ boundaries [0x90, 0xb8, 0, 0, 0, 0, 0xc3] ∧
      ∀ b ∈ boundaries [0x90, 0xb8, 0, 0, 0, 0, 0xc3], 5 ≤ b → 6 ≤ b :=
  prolog_consumed_minimal [0x90, 0xb8, 0, 0, 0, 0, 0xc3] 5 6 rfl

/-! ### Lifecycle, round trip, failure atomicity, and re-hooking -/

theorem analyzeAux_done (required fuel : Nat) (bytes : List Nat) (acc : Nat)
    (h : required ≤ acc) : analyzeAux required fuel bytes acc = .ok acc := by
  cases fuel <;> simp [analyzeAux, h]

theorem writeBytes_lookup_head (m : Mem) (a b : Nat) (bs : List Nat) :
    writeBytes m a (b :: bs) a = b := by
  simp only [writeBytes]
  rw [writeBytes_lookup_lt _ _ _ _ (Nat.lt_succ_self a)]
  simp

theorem prologAnalyze_jump (bytes : List Nat) (h : 4 ≤ bytes.length) :
    prologAnalyze (0xe9 :: bytes) patchSize = .ok 5 := by
  unfold prologAnalyze
  simp only [List.length_cons]
  have hd : decodeLen (0xe9 :: bytes) = if 4 ≤ bytes.length then some 5 else none := rfl
  simp only [analyzeAux, hd, if_pos h, if_neg (by simp [patchSize] : ¬ patchSize ≤ 0)]
  exact analyzeAux_done _ _ _ _ (by simp [patchSize])

/-- C3: for every detour successfully constructed and enabled, disabling
it restores, on the patched portion of the target, exactly the snapshot
of original bytes taken at construction, before `enable()`. -/
theorem disable_restores_snapshot (mem : Mem) (t r : Nat) (d : RawDetour)
    (hnew : new mem t r = .ok d) :
    (enableOp true mem d).1 = .ok () ∧
      (disableOp true (enableOp true mem d).2.1 (enableOp true mem d).2.2).1 = .ok () ∧
      readBytes (disableOp true (enableOp true mem d).2.1 (enableOp true mem d).2.2).2.1
          t d.consumed =
        readBytes mem t d.consumed := by
  obtain ⟨ht, hr, hst, hc, hsaved, hpatch⟩ := new_ok_spec mem t r d hnew
  have hen : enableOp true mem d =
      (.ok (), (writeBytes mem d.target d.patchBytes, { d with state := .enabled })) := by
    unfold enableOp
    rw [hst]
    rfl
  rw [hen]
  refine ⟨rfl, rfl, ?_⟩
  show readBytes
      (writeBytes (writeBytes mem d.target d.patchBytes) d.target d.savedBytes) t d.consumed =
    readBytes mem t d.consumed
  have hlen : d.savedBytes.length = d.consumed := by
    rw [hsaved, readBytes_length]
  rw [ht]
  calc readBytes (writeBytes (writeBytes mem t d.patchBytes) t d.savedBytes) t d.consumed
      = readBytes (writeBytes (writeBytes mem t d.patchBytes) t d.savedBytes) t
          d.savedBytes.length := by rw [hlen]
    _ = d.savedBytes := readBytes_writeBytes _ _ _
    _ = readBytes mem t d.consumed := hsaved

/-- C5: the lifecycle state machine — `enable()` succeeds exactly from
the constructed or disabled states and fails with `AlreadyEnabled` from
the enabled state; `disable()` succeeds exactly from the enabled state
and fails with `AlreadyDisabled` from any other; on success they
transition to enabled, respectively disabled. -/
theorem lifecycle_transitions (writeOk : Bool) (mem : Mem) (d : RawDetour) :
    (d.state = .enabled →
      (enableOp writeOk mem d).1 = .error .alreadyEnabled ∧
        (enableOp writeOk mem d).2 = (mem, d)) ∧
    ((d.state = .constructed ∨ d.state = .disabled) →
      (enableOp true mem d).1 = .ok () ∧
        (enableOp true mem d).2.2.state = .enabled) ∧
    (d.state = .enabled →
      (disableOp true mem d).1 = .ok () ∧
        (disableOp true mem d).2.2.state = .disabled) ∧
    (d.state ≠ .enabled →
      (disableOp writeOk mem d).1 = .error .alreadyDisabled ∧
        (disableOp writeOk mem d).2 = (mem, d)) := by
  cases hst : d.state <;> simp [enableOp, disableOp, hst]

/-- C6: a failing operation leaves the prior state untouched — a failed
construction produces no handle, and a failed enable or disable returns
the memory and the detour exactly as they were before the call. -/
theorem failed_ops_preserve_state (writeOk : Bool) (mem : Mem) (d : RawDetour)
    (t r : Nat) (e : Error) :
    (new mem t r = .error e → ∀ d1, new mem t r ≠ .ok d1) ∧
    ((enableOp writeOk mem d).1 = .error e → (enableOp writeOk mem d).2 = (mem, d)) ∧
    ((disableOp writeOk mem d).1 = .error e → (disableOp writeOk mem d).2 = (mem, d)) := by
  refine ⟨?_, ?_, ?_⟩
  · intro hne d1 hok
    rw [hne] at hok
    cases hok
  · cases hst : d.state <;> cases writeOk <;> simp [enableOp, hst]
  · cases hst : d.state <;> cases writeOk <;> simp [disableOp, hst]

/-- C10: constructing a detour against a target whose prolog is already
patched by an enabled detour succeeds with a constructed handle, and that
second detour can itself be enabled. -/
theorem new_on_patched_target (mem : Mem) (t r1 r2 : Nat) (d1 : RawDetour)
    (h1 : new mem t r1 = .ok d1) (h2 : r2 ≠ t) :
    ∃ d2 : RawDetour,
      new (enableOp true mem d1).2.1 t r2 = .ok d2 ∧
        d2.state = .constructed ∧
        (enableOp true (enableOp true mem d1).2.1 d2).1 = .ok () := by
  obtain ⟨ht, hr, hst, hc, hsaved, hpatch⟩ := new_ok_spec mem t r1 d1 h1
  have hen : enableOp true mem d1 =
      (.ok (), (writeBytes mem d1.target d1.patchBytes, { d1 with state := .enabled })) := by
    unfold enableOp
    rw [hst]
    rfl
  rw [hen]
  have hreadw : readBytes (writeBytes mem d1.target d1.patchBytes) t scanWindow =
      (writeBytes mem d1.target d1.patchBytes) t ::
        readBytes (writeBytes mem d1.target d1.patchBytes) (t + 1) 31 := rfl
  have hm1t : (writeBytes mem d1.target d1.patchBytes) t = 0xe9 := by
    rw [ht, hpatch]
    exact writeBytes_lookup_head _ _ _ _
  have hana : prologAnalyze
      (readBytes (writeBytes mem d1.target d1.patchBytes) t scanWindow) patchSize = .ok 5 := by
    rw [hreadw, hm1t]
    exact prologAnalyze_jump _ (by rw [readBytes_length]; omega)
  have hnew2 : new (writeBytes mem d1.target d1.patchBytes) t r2 =
      .ok { target := t
            detourAddr := r2
            savedBytes := readBytes (writeBytes mem d1.target d1.patchBytes) t 5
            patchBytes := encodePatch t r2 5
            consumed := 5
            state := .constructed } := by
    unfold new
    rw [if_neg (fun hh => h2 hh.symm), hana]
  exact ⟨_, hnew2, rfl, rfl⟩

/-! ### Concrete scenario used by the witnesses -/

/-- A concrete memory whose function at address 100 is the crate
documentation's `return_five` example: `mov eax, 5; ret`, NOP-padded. -/
def mem0 : Mem := fun a =>
  if a = 100 then 0xb8 else
  if 101 ≤ a ∧ a ≤ 103 then 0x0 else
  if a = 104 then 0x5 else
  if a = 105 then 0xc3 else 0x90

/-- The detour object `new mem0 100 200` constructs. -/
def wdet : RawDetour :=
  { target := 100
    detourAddr := 200
    savedBytes := [0xb8, 0, 0, 0, 0x5]
    patchBytes := encodePatch 100 200 5
    consumed := 5
    state := .constructed }

/-- The same detour in the enabled state. -/
def wdetE : RawDetour := { wdet with state := .enabled }

theorem disable_restores_snapshot_w :
    (enableOp true mem0 wdet).1 = .ok () ∧
      (disableOp true (enableOp true mem0 wdet).2.1 (enableOp true mem0 wdet).2.2).1 =
        .ok () ∧
      readBytes
          (disableOp true (enableOp true mem0 wdet).2.1 (enableOp true mem0 wdet).2.2).2.1
          100 wdet.consumed =
        readBytes mem0 100 wdet.consumed :=
  disable_restores_snapshot mem0 100 200 wdet rfl

theorem lifecycle_transitions_w :
    ((enableOp true mem0 wdetE).1 = .error .alreadyEnabled ∧
        (enableOp true mem0 wdetE).2 = (mem0, wdetE)) ∧
      ((enableOp true mem0 wdet).1 = .ok () ∧
        (enableOp true mem0 wdet).2.2.state = .enabled) ∧
      ((disableOp true mem0 wdetE).1 = .ok () ∧
        (disableOp true mem0 wdetE).2.2.state = .disabled) ∧
      ((disableOp true mem0 wdet).1 = .error .alreadyDisabled ∧
        (disableOp true mem0 wdet).2 = (mem0, wdet)) :=
  ⟨(lifecycle_transitions true mem0 wdetE).1 rfl,
   (lifecycle_transitions true mem0 wdet).2.1 (Or.inl rfl),
   (lifecycle_transitions true mem0 wdetE).2.2.1 rfl,
   (lifecycle_transitions true mem0 wdet).2.2.2 (by decide)⟩

theorem failed_ops_preserve_state_w :
    (new mem0 7 7 ≠ .ok wdet) ∧
      (enableOp false mem0 wdet).2 = (mem0, wdet) ∧
      (disableOp true mem0 wdet).2 = (mem0, wdet) :=
  ⟨(failed_ops_preserve_state false mem0 wdet 7 7 .sameAddress).1 rfl wdet,
   (failed_ops_preserve_state false mem0 wdet 7 7 .threadSuspendConflict).2.1 rfl,
   (failed_ops_preserve_state true mem0 wdet 7 7 .alreadyDisabled).2.2 rfl⟩

theorem new_on_patched_target_w :
    ∃ d2 : RawDetour,
      new (enableOp true mem0 wdet).2.1 100 300 = .ok d2 ∧
        d2.state = .constructed ∧
        (enableOp true (enableOp true mem0 wdet).2.1 d2).1 = .ok () :=
  new_on_patched_target mem0 100 200 300 wdet rfl (by decide)

/-! ### Hook-chain resolution model

The chaining policy of spec section 4.5: a detour constructed against an
already-patched target snapshots the patched prolog, so its trampoline
reaches the previously active detour rather than the pristine function.
-/

/-- Signed 32-bit wrap-around, matching Rust `i32` arithmetic. -/
def wrap32 (z : Int) : Int := (z + 2 ^ 31) % 2 ^ 32 - 2 ^ 31

/-- The behaviour of a two-argument `i32` function. -/
def Behavior : Type := Int → Int → Int

/-- Modelled from the spec: the hook-chain state of the missing `detours`
module (spec section 4.5, chaining policy).  `orig` is the pristine
behaviour of the code at each address; `entry` is the hook entry
currently patched into each address's prolog — `none` when pristine,
`some r` when the prolog jumps to the replacement at `r`. -/
structure HookWorld where
  orig : Nat → Behavior
  entry : Nat → Option Nat

/-- A detour in the hook-chain model: target, replacement address, and
the snapshot of the target's entry taken at construction (the spec's
"patched original bytes" snapshot), which is what its trampoline
reaches. -/
structure SemDetour where
  target : Nat
  rep : Nat
  snapshot : Option Nat

/-- Construction in the chain model: snapshot whatever entry the target
currently has, patched or pristine. -/
def newSem (w : HookWorld) (t r : Nat) : SemDetour :=
  ⟨t, r, w.entry t⟩

/-- Enabling in the chain model: the target's prolog now jumps to this
detour's replacement. -/
def enableSem (w : HookWorld) (d : SemDetour) : HookWorld :=
  { w with entry := fun a => if a = d.target then some d.rep else w.entry a }

/-- Calling an address directly: runs the patched-in replacement when one
is installed (replacement bodies themselves are unhooked here), else the
pristine code. -/
def callAddr (w : HookWorld) (a : Nat) : Behavior :=
  match w.entry a with
  | none => w.orig a
  | some r => w.orig r

/-- Calling through a detour's trampoline — the typed wrapper's `call`:
the trampoline executes the prolog snapshot taken at construction. -/
def callTrampoline (w : HookWorld) (d : SemDetour) : Behavior :=
  match d.snapshot with
  | none => w.orig d.target
  | some r => w.orig r

/-- `add(x,y) = x + y` from the `detours_share_target` test. -/
def addB : Behavior := fun x y => wrap32 (x + y)

/-- `sub(x,y) = x - y` from the `detours_share_target` test. -/
def subB : Behavior := fun x y => wrap32 (x - y)

/-- `div(x,y) = x / y` (Rust truncated division) from the
`detours_share_target` test. -/
def divB : Behavior := fun x y => wrap32 (Int.tdiv x y)

/-- The initial world of the `detours_share_target` test: `add` at
address 10, `sub` at 20, `div` at 30, nothing hooked. -/
def world0 : HookWorld :=
  { orig := fun a =>
      if a = 10 then addB else
      if a = 20 then subB else
      if a = 30 then divB else fun _ _ => 0
    entry := fun _ => none }

/-- `hook1 = GenericDetour::new(add, sub)`. -/
def hook1 : SemDetour := newSem world0 10 20

/-- The world after `hook1.enable()`. -/
def world1 : HookWorld := enableSem world0 hook1

/-- `hook2 = GenericDetour::new(add, div)`, constructed while `hook1` is
enabled. -/
def hook2 : SemDetour := newSem world1 10 30

/-- The world after `hook2.enable()`. -/
def world2 : HookWorld := enableSem world1 hook2

/-- C1: in the `detours_share_target` scenario — target `add`, detour 1
`sub` enabled first, detour 2 `div` enabled second — a direct call
`add(10,5)` runs `div` and returns 2, `hook2.call(5,5)` runs the
previously active `sub` and returns 0, and after enabling only detour 1
a direct call `add(5,5)` runs `sub` and returns 0. -/
theorem chain_scenario :
    callAddr world1 10 5 5 = 0 ∧
      callTrampoline world2 hook2 5 5 = 0 ∧
      callAddr world2 10 10 5 = 2 ∧
      world2.entry 10 = some 30 ∧
      hook2.snapshot = some 20 := by
  refine ⟨?_, ?_, ?_, ?_, ?_⟩ <;> decide

/-- C9: enabling a freshly constructed detour patches the target's prolog
to jump to its own replacement, yet its trampoline resolves to the entry
snapshot taken at construction — the previously active detour or the
original function — which is never the detour's own replacement, and
calling through the trampoline behaves exactly like calling the target
before this detour was enabled. -/
theorem call_reaches_previous_entry (w : HookWorld) (t r : Nat)
    (h : w.entry t ≠ some r) :
    (enableSem w (newSem w t r)).entry t = some r ∧
      (newSem w t r).snapshot = w.entry t ∧
      (newSem w t r).snapshot ≠ some r ∧
      callTrampoline (enableSem w (newSem w t r)) (newSem w t r) = callAddr w t := by
  refine ⟨?_, rfl, h, ?_⟩
  · simp [enableSem, newSem]
  · cases hwe : w.entry t <;>
      simp [callTrampoline, callAddr, enableSem, newSem, hwe]

theorem call_reaches_previous_entry_w :
    (enableSem world1 (newSem world1 10 30)).entry 10 = some 30 ∧
      (newSem world1 10 30).snapshot = world1.entry 10 ∧
      (newSem world1 10 30).snapshot ≠ some 30 ∧
      callTrampoline (enableSem world1 (newSem world1 10 30)) (newSem world1 10 30) =
        callAddr world1 10 :=
  call_reaches_previous_entry world1 10 30 (by decide)

/-! ### Relocation model

The code relocator of spec section 4.3: each consumed prolog instruction
is copied to the trampoline with its relative-branch or RIP-relative
displacement rewritten so the effective target address is unchanged,
followed by an unconditional jump back to the first unconsumed
instruction.
-/

/-- Modelled from the spec: the operand classification of the missing
`arch` decoder (spec section 4.1) — plain, relative branch displacement,
or RIP-relative displacement. -/
inductive Operand where
  | plain
  | relBranch (disp : Int)
  | ripRel (disp : Int)
deriving DecidableEq

/-- Modelled from the spec: one decoded instruction as the relocator of
the missing `pic`/`arch` modules sees it: opcode, length, operand. -/
structure Instr where
  opcode : Nat
  len : Nat
  operand : Operand
deriving DecidableEq

/-- The effective address an instruction's relative operand refers to
when the instruction sits at `addr` (x86 resolves displacements against
the end of the instruction). -/
def effTarget (addr : Int) (i : Instr) : Option Int :=
  match i.operand with
  | .plain => none
  | .relBranch d => some (addr + i.len + d)
  | .ripRel d => some (addr + i.len + d)

/-- Relocating one instruction from address `src` to address `dst`:
opcode and length are copied verbatim, relative displacements are shifted
by the address change. -/
def relocInstr (src dst : Int) (i : Instr) : Instr :=
  { i with
    operand :=
      match i.operand with
      | .plain => .plain
      | .relBranch d => .relBranch (d + (src - dst))
      | .ripRel d => .ripRel (d + (src - dst)) }

/-- Relocating a whole instruction sequence, each instruction at its own
running address. -/
def relocSeq (src dst : Int) : List Instr → List Instr
  | [] => []
  | i :: is => relocInstr src dst i :: relocSeq (src + i.len) (dst + i.len) is

/-- Total byte length of an instruction sequence. -/
def codeLen : List Instr → Int
  | [] => 0
  | i :: is => i.len + codeLen is

/-- The effective addresses of all operands of a sequence laid out at
`addr`. -/
def effTargets (addr : Int) : List Instr → List (Option Int)
  | [] => []
  | i :: is => effTarget addr i :: effTargets (addr + i.len) is

/-- An unconditional `jmp rel32` placed at `source` and aimed at
`dest`. -/
def mkJump (source dest : Int) : Instr :=
  { opcode := 0xe9, len := 5, operand := .relBranch (dest - (source + 5)) }

/-- Executing an instruction sequence laid out at `addr` under an
abstract machine semantics `S`: the observable effect of one instruction
is a function of its opcode and the effective address of its operand. -/
def runFrom {St : Type} (S : Nat → Option Int → St → St) :
    Int → List Instr → St → St
  | _, [], s => s
  | addr, i :: is, s => runFrom S (addr + i.len) is (S i.opcode (effTarget addr i) s)

theorem effTarget_relocInstr (src dst : Int) (i : Instr) :
    effTarget dst (relocInstr src dst i) = effTarget src i := by
  cases i with
  | mk op l oper =>
    cases oper <;> simp [effTarget, relocInstr] <;> omega

theorem len_relocInstr (src dst : Int) (i : Instr) :
    (relocInstr src dst i).len = i.len := rfl

/-- C4: for a prolog fully contained in the consumed region, executing
the relocated trampoline copy from its new address has, under every
machine semantics determined by opcode and effective operand address, the
same observable effect as executing the original prolog in place; every
relative operand of the relocated copy resolves to the same effective
address as in the original, and the appended jump back resolves to the
first unconsumed instruction of the target. -/
theorem trampoline_fidelity {St : Type} (S : Nat → Option Int → St → St)
    (src dst : Int) (is : List Instr) (s : St) :
    runFrom S dst (relocSeq src dst is) s = runFrom S src is s ∧
      effTargets dst (relocSeq src dst is) = effTargets src is ∧
      effTarget (dst + codeLen is) (mkJump (dst + codeLen is) (src + codeLen is)) =
        some (src + codeLen is) := by
  refine ⟨?_, ?_, ?_⟩
  · induction is generalizing src dst s with
    | nil => rfl
    | cons i is ih =>
      simp only [relocSeq, runFrom, effTarget_relocInstr, len_relocInstr]
      exact ih (src + i.len) (dst + i.len) _
  · induction is generalizing src dst with
    | nil => rfl
    | cons i is ih =>
      simp only [relocSeq, effTargets, effTarget_relocInstr, len_relocInstr]
      rw [ih (src + i.len) (dst + i.len)]
  · simp only [mkJump, effTarget]
    congr 1
    omega

end Retour
